import Mathlib

/-!
Shallow embedding of the selection-and-bulk-operation engine of
`src/class/FileExplorer.ts` (the `FileExplorer` class, the
`RandomDirectoryNameGenerator`, and the `FileSystemPort` capability it
consumes), together with theorems settling the specification claims.

Modelling conventions:
* The abstract filesystem port is a record of pure functions over an explicit
  world type `W`; fallible operations return `Except String W`.  A failing
  port call is modelled as atomic (it reports an error and the world is kept
  as it was before the call); `exists` is modelled read-only, following the
  port contract "test existence: boolean, never raises".
* The engine's mutable instance state (the selection `Set<string>` and the
  injected name generator's randomness) is an explicit `EState` record.  The
  JavaScript `Set` is insertion-ordered and duplicate-free, so the selection
  is a duplicate-free `List String`; the generator is a stream `Nat → String`
  together with a counter counting the `generate()` calls made so far.
* `async`/`throw` control flow becomes explicit result passing: an engine
  method on state `s` returns `StepResult.ok v s'` or `StepResult.error e s'`.
* Node `path` helpers are modelled for the normalized absolute paths the
  engine manipulates: `path.join` of a directory not ending in the separator
  with a plain child name is concatenation with one separator, `path.resolve`
  keeps absolute paths and prefixes `cwd` otherwise, and normalization of
  `.`/`..` segments (never produced by the engine) is not modelled.
* The unbounded loops of the source (`while (true)` suffix probing,
  recursion over an arbitrarily deep directory tree) take an explicit fuel
  parameter; exhausting the fuel is reported as an error.
-/

namespace FileExplorer

/-- `EntryType` from the source: `'file' | 'directory'`. -/
inductive EntryType where
  | file
  | directory
deriving DecidableEq, Repr

/-- `FileEntry` from the source: absolute `path`, leaf `name`, `type`. -/
structure FileEntry where
  path : String
  name : String
  type : EntryType
deriving DecidableEq, Repr

/-- `FileSystemDirEntry` from the source: child `name` and `type`. -/
structure FileSystemDirEntry where
  name : String
  type : EntryType
deriving DecidableEq, Repr

/-- `OperationFailure` from the source; the thrown `unknown` error is
modelled as a `String`. -/
structure OperationFailure where
  path : String
  error : String
deriving DecidableEq, Repr

/-- `OperationResult` from the source. -/
structure OperationResult where
  processed : List String
  failed : List OperationFailure
deriving DecidableEq, Repr

/-- The abstract `FileSystemPort`, as a record of pure functions over an
explicit world type `W`.  `mkdir` is always called by the engine with
`{ recursive: true }` and `rm` with `{ recursive: true, force: true }`, so
those option arguments are omitted.  Queries (`readDir`, `stat`, `exists`)
are modelled read-only; `exists` never raises, per the port contract. -/
structure FsPort (W : Type) where
  readDir : W → String → Except String (List FileSystemDirEntry)
  stat : W → String → Except String EntryType
  copyFile : W → String → String → Except String W
  mkdir : W → String → Except String W
  rm : W → String → Except String W
  rename : W → String → String → Except String W
  existsPath : W → String → Bool

/-- The mutable instance state of a `FileExplorer`: the filesystem world, the
selection `Set<string>` (insertion-ordered, duplicate-free list), and the
number of `generate()` calls made so far on the injected name generator. -/
structure EState (W : Type) where
  world : W
  selection : List String
  rng : Nat
deriving DecidableEq

/-- The immutable collaborators of a `FileExplorer` instance: the filesystem
port, the injected `DirectoryNameGenerator` (as the stream of names its
successive `generate()` calls produce), and the process working directory
used by `path.resolve`. -/
structure Engine (W : Type) where
  port : FsPort W
  nameGen : Nat → String
  cwd : String

/-- Result of one engine method on state `s`: either a value and the updated
state, or a thrown error message and the state at the point of the throw. -/
inductive StepResult (W : Type) (α : Type) where
  | ok (value : α) (state : EState W)
  | error (msg : String) (state : EState W)
deriving DecidableEq

/-- Models Node `path.join(a, b)` for a normalized `a` that does not end in
the separator and a plain relative segment `b`: concatenation with a single
separator (the only form the engine uses). -/
def pathJoin (a b : String) : String := a ++ "/" ++ b

/-- Splits a character list at `'/'` separators; the structural core of the
Node `path` helper models (`String.splitOn` itself is not kernel-reducible). -/
def splitOnSlash : List Char → List (List Char)
  | [] => [[]]
  | x :: xs =>
    match splitOnSlash xs with
    | [] => [[]]
    | part :: rest => if x = '/' then [] :: part :: rest else (x :: part) :: rest

/-- Joins character-list components with `'/'`. -/
def joinSlash : List (List Char) → List Char
  | [] => []
  | [part] => part
  | part :: rest => part ++ '/' :: joinSlash rest

/-- Models Node `path.isAbsolute` / a leading-separator test. -/
def isAbsolute (p : String) : Bool := p.data.head? = some '/'

/-- Models Node `path.basename`: the substring after the final separator. -/
def basename (p : String) : String := String.mk ((splitOnSlash p.data).getLastD [])

/-- Models Node `path.dirname`: everything before the final separator, with
Node's edge cases (`dirname "/a" = "/"`, `dirname "a" = "."`). -/
def dirname (p : String) : String :=
  let parts := splitOnSlash p.data
  let front := parts.dropLast
  if front = [] ∨ front = [[]] then (if isAbsolute p then "/" else ".")
  else String.mk (joinSlash front)

/-- Models Node `path.resolve(p)` against the working directory `cwd`: an
absolute path is kept, a relative one is appended to `cwd`.  (Normalization
of `.`/`..` segments is not modelled.) -/
def pathResolve (cwd p : String) : String :=
  if isAbsolute p then p else if p.data.isEmpty then cwd else pathJoin cwd p

/-- JavaScript truthiness of the optional `destinationRoot` string argument:
`undefined` and the empty string are falsy. -/
def truthy : Option String → Bool
  | none => false
  | some r => !r.data.isEmpty

/-- Primary collation weight of an ASCII character: its case-folded code
point, so that the primary comparison is case-insensitive. -/
def charPrimary (c : Char) : Nat := if c.isUpper then c.toNat + 32 else c.toNat

/-- Tertiary collation weight of an ASCII character: ICU's root collation
orders lowercase before uppercase on a primary tie. -/
def caseRank (c : Char) : Nat := if c.isUpper then 1 else 0

/-- Primary collation key of a string. -/
def primaryKey (s : String) : List Nat := s.data.map charPrimary

/-- Tertiary collation key of a string. -/
def caseKey (s : String) : List Nat := s.data.map caseRank

/-- Models the comparator `(a, b) => a.localeCompare(b) <= 0` used by
`listEntries`' sort, i.e. ECMA-402 `String.prototype.localeCompare` under the
default ICU root collation, restricted to the ASCII names exercised here:
the primary comparison is case-insensitive (case-folded code points); a
primary tie is broken lowercase-before-uppercase.  This is deliberately NOT
plain code-unit order: ICU orders `"a"` before `"B"`, while code units order
`"B"` before `"a"`. -/
def localeLe (a b : String) : Bool :=
  if primaryKey a = primaryKey b then decide (caseKey a ≤ caseKey b)
  else decide (primaryKey a < primaryKey b)

/-- `FileExplorer.toFileEntry`: absolute path via `path.join`, leaf name and
type copied from the directory entry. -/
def toFileEntry (directory : String) (dirent : FileSystemDirEntry) : FileEntry :=
  { path := pathJoin directory dirent.name
    name := dirent.name
    type := dirent.type }

/-- `FileExplorer.listEntries`: resolve the directory, enumerate it through
the port, convert each entry, and sort with the `localeCompare` comparator
(V8's `Array.prototype.sort` is stable, modelled by `List.mergeSort`). -/
def listEntries (eng : Engine W) (w : W) (directory : String) :
    Except String (List FileEntry) :=
  match eng.port.readDir w (pathResolve eng.cwd directory) with
  | .error e => .error e
  | .ok entries =>
      .ok ((entries.map (toFileEntry (pathResolve eng.cwd directory))).mergeSort
        (fun a b => localeLe a.name b.name))

/-- `RandomDirectoryNameGenerator`'s validated dictionaries. -/
structure GeneratorConfig where
  adjectives : List String
  nouns : List String
deriving DecidableEq, Repr

/-- The `RandomDirectoryNameGenerator` constructor: building a generator
with either dictionary empty throws the configuration error. -/
def mkRandomDirectoryNameGenerator (adjectives nouns : List String) :
    Except String GeneratorConfig :=
  if adjectives.length = 0 ∨ nouns.length = 0 then
    .error "Both dictionaries must contain at least one entry."
  else .ok { adjectives := adjectives, nouns := nouns }

/-- `RandomDirectoryNameGenerator.pickOne`: index
`Math.floor(random.next() * dictionary.length)`; the randomness sample is
modelled as an exact rational.  JavaScript indexing out of range yields
`undefined`, which string interpolation renders as `"undefined"`, modelled by
the `getD` default. -/
def pickOne (dictionary : List String) (r : ℚ) : String :=
  dictionary.getD (Int.toNat ⌊r * (dictionary.length : ℚ)⌋) "undefined"

/-- `RandomDirectoryNameGenerator.generate`: an adjective-noun pair drawn
with two successive samples of the injected randomness source. -/
def generate (g : GeneratorConfig) (r1 r2 : ℚ) : String :=
  pickOne g.adjectives r1 ++ "-" ++ pickOne g.nouns r2

/-- `Set.add` on the insertion-ordered selection: append if absent. -/
def setAdd (l : List String) (x : String) : List String :=
  if x ∈ l then l else l ++ [x]

/-- The loop of `FileExplorer.tryRandomDestination`: `attemptsLeft` trials
remain, `rng` counts `generate()` calls so far, `lastRandomName` is the last
name tried.  Returns the accepted free candidate (if any), the last tried
random name, and the updated generator counter. -/
def tryRandomLoop (eng : Engine W) (w : W) (parentDirectory : String) :
    Nat → Nat → Option String → Option String × Option String × Nat
  | 0, rng, lastRandomName => (none, lastRandomName, rng)
  | attemptsLeft + 1, rng, _ =>
    let randomName := eng.nameGen rng
    let candidate := pathJoin parentDirectory randomName
    if eng.port.existsPath w candidate then
      tryRandomLoop eng w parentDirectory attemptsLeft (rng + 1) (some randomName)
    else
      (some candidate, some randomName, rng + 1)

/-- `FileExplorer.tryRandomDestination`: up to `maxAttempts = 10` random-name
trials in `parentDirectory`. -/
def tryRandomDestination (eng : Engine W) (w : W) (parentDirectory : String)
    (rng : Nat) : Option String × Option String × Nat :=
  tryRandomLoop eng w parentDirectory 10 rng none

/-- The `while (true)` loop of `FileExplorer.generateNumberedDestination`,
probing `<baseName>-<suffix>` for `suffix = 1, 2, ...`; the source's
unbounded loop carries an explicit fuel here. -/
def numberedLoop (p : FsPort W) (w : W) (parentDirectory baseName : String) :
    Nat → Nat → Except String String
  | _, 0 => .error "recursion fuel exhausted"
  | suffix, fuel + 1 =>
    let numberedCandidate := pathJoin parentDirectory (baseName ++ "-" ++ toString suffix)
    if p.existsPath w numberedCandidate then
      numberedLoop p w parentDirectory baseName (suffix + 1) fuel
    else .ok numberedCandidate

/-- `FileExplorer.generateNumberedDestination`: suffix the last random name
(or a fresh one when the loop never ran, `lastRandomName ?? generate()`)
until a free candidate is found.  Returns the result and the updated
generator counter. -/
def generateNumberedDestination (eng : Engine W) (fuel : Nat) (w : W)
    (parentDirectory : String) (lastRandomName : Option String) (rng : Nat) :
    Except String String × Nat :=
  match lastRandomName with
  | some baseName => (numberedLoop eng.port w parentDirectory baseName 1 fuel, rng)
  | none => (numberedLoop eng.port w parentDirectory (eng.nameGen rng) 1 fuel, rng + 1)

/-- `FileExplorer.resolveDestination`: a truthy caller-supplied root is
resolved and used directly; otherwise random-name trials next to the first
snapshot entry's parent, then the numbered fallback.  (`selection[0]` is
only read on the falsy branch, where the caller guarantees a non-empty
snapshot; the `if (candidate)` test of the source is the `Option` match,
`pathJoin` never producing the empty string.) -/
def resolveDestination (eng : Engine W) (fuel : Nat) (w : W)
    (selection : List String) (destinationRoot : Option String) (rng : Nat) :
    Except String String × Nat :=
  if truthy destinationRoot then
    (.ok (pathResolve eng.cwd (destinationRoot.getD "")), rng)
  else
    let parentDirectory := dirname (selection.headD "")
    match tryRandomDestination eng w parentDirectory rng with
    | (some candidate, _, rng') => (.ok candidate, rng')
    | (none, lastRandomName, rng') =>
        generateNumberedDestination eng fuel w parentDirectory lastRandomName rng'

/-- `FileExplorer.copyEntryRecursive` as a world transformer: directories are
mirrored with `mkdir` and their enumerated children copied depth-first (in
order, an error carried past the remaining children unchanged, as a thrown
exception exits the source's loop); files are copied after ensuring the
destination's parent directory.  The source's unbounded tree recursion
carries an explicit fuel, spent once per child step. -/
def copyEntryRecursiveW (p : FsPort W) : Nat → String → String → W →
    Except String Unit × W
  | 0, _, _, w => (.error "recursion fuel exhausted", w)
  | fuel + 1, source, destination, w =>
    match p.stat w source with
    | .error e => (.error e, w)
    | .ok EntryType.directory =>
      match p.mkdir w destination with
      | .error e => (.error e, w)
      | .ok w1 =>
        match p.readDir w1 source with
        | .error e => (.error e, w1)
        | .ok entries =>
          entries.foldl
            (fun acc entry =>
              match acc with
              | (.error e, w2) => (.error e, w2)
              | (.ok _, w2) =>
                copyEntryRecursiveW p fuel (pathJoin source entry.name)
                  (pathJoin destination entry.name) w2)
            ((.ok (), w1) : Except String Unit × W)
    | .ok EntryType.file =>
      match p.mkdir w (dirname destination) with
      | .error e => (.error e, w)
      | .ok w1 =>
        match p.copyFile w1 source destination with
        | .error e => (.error e, w1)
        | .ok w2 => (.ok (), w2)

/-- The `catch` block of `FileExplorer.moveEntry`: the recursive copy
followed by recursive removal of the source. -/
def copyThenRemoveW (p : FsPort W) (fuel : Nat) (source destination : String)
    (w : W) : Except String Unit × W :=
  match copyEntryRecursiveW p fuel source destination w with
  | (.error e, w1) => (.error e, w1)
  | (.ok _, w1) =>
    match p.rm w1 source with
    | .error e => (.error e, w1)
    | .ok w2 => (.ok (), w2)

/-- `FileExplorer.moveEntry`: attempt the rename; on any rename failure run
the copy-then-remove fallback, discarding the rename's own error. -/
def moveEntryW (p : FsPort W) (fuel : Nat) (source destination : String)
    (w : W) : Except String Unit × W :=
  match p.rename w source destination with
  | .ok w1 => (.ok (), w1)
  | .error _ => copyThenRemoveW p fuel source destination w

/-- The per-source callback `copySelection` passes to `runOperation`. -/
def copyPerformer (eng : Engine W) (fuel : Nat) (destination source : String)
    (s : EState W) : StepResult W String :=
  match copyEntryRecursiveW eng.port fuel source
      (pathJoin destination (basename source)) s.world with
  | (.ok _, w1) => .ok (pathJoin destination (basename source)) { s with world := w1 }
  | (.error e, w1) => .error e { s with world := w1 }

/-- The per-source callback `moveSelection` passes to `runOperation`: on
success the source is deleted from the selection and the target inserted. -/
def movePerformer (eng : Engine W) (fuel : Nat) (destination source : String)
    (s : EState W) : StepResult W String :=
  match moveEntryW eng.port fuel source
      (pathJoin destination (basename source)) s.world with
  | (.ok _, w1) =>
      .ok (pathJoin destination (basename source))
        { s with
          world := w1,
          selection := setAdd (s.selection.erase source)
            (pathJoin destination (basename source)) }
  | (.error e, w1) => .error e { s with world := w1 }

/-- The per-source callback `deleteSelection` passes to `runOperation`: on
success the source is removed from disk and from the selection. -/
def deletePerformer (eng : Engine W) (source : String) (s : EState W) :
    StepResult W String :=
  match eng.port.rm s.world source with
  | .error e => .error e s
  | .ok w => .ok source { s with world := w, selection := s.selection.erase source }

/-- `FileExplorer.runOperation`: process every snapshot entry in order,
pushing the performer's value on success and the source path with the caught
error on failure; one entry's failure never aborts the loop. -/
def runOperation (performer : String → EState W → StepResult W String) :
    List String → EState W → OperationResult × EState W
  | [], s => ({ processed := [], failed := [] }, s)
  | source :: rest, s =>
    match performer source s with
    | .ok value s1 =>
      let r := runOperation performer rest s1
      ({ processed := value :: r.1.processed, failed := r.1.failed }, r.2)
    | .error e s1 =>
      let r := runOperation performer rest s1
      ({ processed := r.1.processed,
         failed := { path := source, error := e } :: r.1.failed }, r.2)

/-- The per-entry trace of a `runOperation` run: each snapshot entry, in
order, paired with its outcome.  Used to state the exactly-once accounting
of the `OperationResult`. -/
def entryOutcomes (performer : String → EState W → StepResult W String) :
    List String → EState W → List (String × Except String String) × EState W
  | [], s => ([], s)
  | source :: rest, s =>
    match performer source s with
    | .ok value s1 =>
      let r := entryOutcomes performer rest s1
      ((source, .ok value) :: r.1, r.2)
    | .error e s1 =>
      let r := entryOutcomes performer rest s1
      ((source, .error e) :: r.1, r.2)

/-- `FileExplorer.copySelection`: snapshot (failing fast when empty), resolve
the destination, create it recursively, then run the copy performer over the
snapshot. -/
def copySelection (eng : Engine W) (fuel : Nat) (destinationRoot : Option String)
    (s : EState W) : StepResult W OperationResult :=
  if s.selection.isEmpty then .error "No entries selected." s
  else
    match resolveDestination eng fuel s.world s.selection destinationRoot s.rng with
    | (.error e, rng2) => .error e { s with rng := rng2 }
    | (.ok destination, rng2) =>
      match eng.port.mkdir s.world destination with
      | .error e => .error e { s with rng := rng2 }
      | .ok w =>
        match runOperation (copyPerformer eng fuel destination) s.selection
            { world := w, selection := s.selection, rng := rng2 } with
        | (r, s2) => .ok r s2

/-- `FileExplorer.moveSelection`: like `copySelection` with the move
performer. -/
def moveSelection (eng : Engine W) (fuel : Nat) (destinationRoot : Option String)
    (s : EState W) : StepResult W OperationResult :=
  if s.selection.isEmpty then .error "No entries selected." s
  else
    match resolveDestination eng fuel s.world s.selection destinationRoot s.rng with
    | (.error e, rng2) => .error e { s with rng := rng2 }
    | (.ok destination, rng2) =>
      match eng.port.mkdir s.world destination with
      | .error e => .error e { s with rng := rng2 }
      | .ok w =>
        match runOperation (movePerformer eng fuel destination) s.selection
            { world := w, selection := s.selection, rng := rng2 } with
        | (r, s2) => .ok r s2

/-- `FileExplorer.deleteSelection`: snapshot (failing fast when empty), then
run the delete performer over the snapshot. -/
def deleteSelection (eng : Engine W) (s : EState W) : StepResult W OperationResult :=
  if s.selection.isEmpty then .error "No entries selected." s
  else
    match runOperation (deletePerformer eng) s.selection s with
    | (r, s2) => .ok r s2

/-- A trivial world and port where every operation succeeds and no path
exists; used to instantiate general theorems at concrete inputs. -/
def port0 : FsPort Unit :=
  { readDir := fun _ _ => .ok []
    stat := fun _ _ => .ok EntryType.file
    copyFile := fun _ _ _ => .ok ()
    mkdir := fun _ _ => .ok ()
    rm := fun _ _ => .ok ()
    rename := fun _ _ _ => .ok ()
    existsPath := fun _ _ => false }

/-- A concrete engine over `port0`. -/
def eng0 : Engine Unit :=
  { port := port0, nameGen := fun i => "gen" ++ toString i, cwd := "/cwd" }

/-- A concrete state with one selected path. -/
def st0 : EState Unit := { world := (), selection := ["/root/a.txt"], rng := 0 }

/-- A concrete state with an empty selection. -/
def stEmpty : EState Unit := { world := (), selection := [], rng := 0 }

/-- Like `port0` but `rename` always fails (e.g. a cross-device move). -/
def portRenameFails : FsPort Unit :=
  { port0 with rename := fun _ _ _ => .error "EXDEV" }

/-- A concrete engine over `portRenameFails`. -/
def engRF : Engine Unit := { eng0 with port := portRenameFails }

/-- Like `port0` but the listed directory has children `B` and `a`, whose
locale order differs from code-unit order. -/
def portBa : FsPort Unit :=
  { port0 with readDir := fun _ _ =>
      Except.ok [⟨"B", EntryType.file⟩, ⟨"a", EntryType.file⟩] }

/-- A concrete engine over `portBa`. -/
def engBa : Engine Unit := { eng0 with port := portBa }

/-- Like `port0` but exactly the path `/root/n` exists, so a constant name
generator collides on every random trial while the first numbered suffix is
free. -/
def portN : FsPort Unit :=
  { port0 with existsPath := fun _ p => p == "/root/n" }

/-- A concrete engine over `portN` whose generator always produces `n`. -/
def engN : Engine Unit := { port := portN, nameGen := fun _ => "n", cwd := "/cwd" }

/-! ## Theorems -/

/-- Resolving with the explicitly supplied empty string takes the same falsy
branch as resolving with no argument at all. -/
theorem resolveDestination_some_empty (W : Type) (eng : Engine W) (fuel : Nat)
    (w : W) (selection : List String) (rng : Nat) :
    resolveDestination eng fuel w selection (some "") rng =
      resolveDestination eng fuel w selection none rng := rfl

/-- Claim C4: with an empty selection, each bulk operation throws the
`"No entries selected."` error with the engine state — selection, generator
counter and filesystem world — unchanged, hence before any filesystem
operation is performed and with no partial result. -/
theorem claim_C4 (W : Type) (eng : Engine W) (fuel : Nat)
    (destinationRoot : Option String) (s : EState W) (h : s.selection = []) :
    copySelection eng fuel destinationRoot s = .error "No entries selected." s ∧
    moveSelection eng fuel destinationRoot s = .error "No entries selected." s ∧
    deleteSelection eng s = .error "No entries selected." s := by
  have he : s.selection.isEmpty = true := by simp [h]
  exact ⟨by simp [copySelection, he], by simp [moveSelection, he],
    by simp [deleteSelection, he]⟩

/-- Witness for C4 at a concrete empty-selection state. -/
theorem claim_C4_witness :
    copySelection eng0 5 (some "/dest") stEmpty = .error "No entries selected." stEmpty ∧
    moveSelection eng0 5 (some "/dest") stEmpty = .error "No entries selected." stEmpty ∧
    deleteSelection eng0 stEmpty = .error "No entries selected." stEmpty :=
  claim_C4 Unit eng0 5 (some "/dest") stEmpty rfl

/-- Claim C10: supplying the empty string as `destinationRoot` is falsy in
the `if (destinationRoot)` test, so `copySelection` and `moveSelection`
behave exactly as when no destination root is supplied (the generated
sibling-directory branch), rather than resolving `""` to the working
directory. -/
theorem claim_C10 (W : Type) (eng : Engine W) (fuel : Nat) (s : EState W) :
    copySelection eng fuel (some "") s = copySelection eng fuel none s ∧
    moveSelection eng fuel (some "") s = moveSelection eng fuel none s := by
  constructor
  · simp only [copySelection, resolveDestination_some_empty]
  · simp only [moveSelection, resolveDestination_some_empty]

/-- Claim C7: `moveEntry` first attempts the direct rename and stops there
on success; on any rename failure it runs the copy-then-remove fallback, and
the result — including any surfaced error — is exactly the fallback's,
independent of the rename's own error.  The third conjunct records the same
for the per-entry move callback, whose rename target is
`<destination>/<basename(source)>`. -/
theorem claim_C7 (W : Type) (p : FsPort W) (eng : Engine W) (fuel : Nat)
    (source destination d : String) (w : W) (w1 : W) (s : EState W) (e : String) :
    (p.rename w source destination = .ok w1 →
      moveEntryW p fuel source destination w = (.ok (), w1)) ∧
    (p.rename w source destination = .error e →
      moveEntryW p fuel source destination w =
        copyThenRemoveW p fuel source destination w) ∧
    (eng.port.rename s.world source (pathJoin d (basename source)) = .error e →
      movePerformer eng fuel d source s =
        (match copyThenRemoveW eng.port fuel source (pathJoin d (basename source)) s.world with
          | (.ok _, w2) => .ok (pathJoin d (basename source)) { s with world := w2, selection := setAdd (s.selection.erase source) (pathJoin d (basename source)) }
          | (.error e2, w2) => .error e2 { s with world := w2 })) := by
  refine ⟨fun h => ?_, fun h => ?_, fun h => ?_⟩
  · simp [moveEntryW, h]
  · simp [moveEntryW, h]
  · simp only [movePerformer, moveEntryW, h]

/-- For a sample in `[0, 1)` and a non-empty list, the source's
`Math.floor(next() * length)` index is in bounds. -/
theorem floor_mul_length_lt (r : ℚ) (n : ℕ) (h0 : 0 ≤ r) (h1 : r < 1) (hn : n ≠ 0) :
    Int.toNat ⌊r * (n : ℚ)⌋ < n := by
  have hn' : (0 : ℚ) < n := by exact_mod_cast Nat.pos_of_ne_zero hn
  have hlt : r * (n : ℚ) < n := by
    calc r * (n : ℚ) < 1 * n := by exact mul_lt_mul_of_pos_right h1 hn'
    _ = n := one_mul _
  have hf : ⌊r * (n : ℚ)⌋ < (n : ℤ) := Int.floor_lt.mpr (by exact_mod_cast hlt)
  have h0' : 0 ≤ ⌊r * (n : ℚ)⌋ := Int.floor_nonneg.mpr (by positivity)
  omega

/-- Claim C9: constructing the name generator with either dictionary empty
fails with the configuration error at construction time; a successfully
constructed generator's `generate()` returns `<adjective>-<noun>` with each
word selected at index `floor(next() * listLength)` using the injected
randomness source — an in-bounds index for samples in `[0, 1)`, so each word
really comes from its dictionary. -/
theorem claim_C9 (adjectives nouns : List String) (g : GeneratorConfig) (r1 r2 : ℚ)
    (hg : mkRandomDirectoryNameGenerator adjectives nouns = .ok g)
    (h1 : 0 ≤ r1) (h1' : r1 < 1) (h2 : 0 ≤ r2) (h2' : r2 < 1) :
    (∀ adjectives' nouns' : List String, (adjectives' = [] ∨ nouns' = []) →
      mkRandomDirectoryNameGenerator adjectives' nouns' =
        .error "Both dictionaries must contain at least one entry.") ∧
    Int.toNat ⌊r1 * (adjectives.length : ℚ)⌋ < adjectives.length ∧
    Int.toNat ⌊r2 * (nouns.length : ℚ)⌋ < nouns.length ∧
    generate g r1 r2 =
      adjectives.getD (Int.toNat ⌊r1 * (adjectives.length : ℚ)⌋) "undefined" ++ "-" ++
        nouns.getD (Int.toNat ⌊r2 * (nouns.length : ℚ)⌋) "undefined" ∧
    pickOne g.adjectives r1 ∈ adjectives ∧ pickOne g.nouns r2 ∈ nouns := by
  by_cases hc : adjectives.length = 0 ∨ nouns.length = 0
  · unfold mkRandomDirectoryNameGenerator at hg
    rw [if_pos hc] at hg
    exact Except.noConfusion hg
  · push_neg at hc
    have hga : g.adjectives = adjectives ∧ g.nouns = nouns := by
      simp only [mkRandomDirectoryNameGenerator] at hg
      rw [if_neg (by push_neg; exact hc)] at hg
      cases hg
      exact ⟨rfl, rfl⟩
    have hb1 := floor_mul_length_lt r1 adjectives.length h1 h1' hc.1
    have hb2 := floor_mul_length_lt r2 nouns.length h2 h2' hc.2
    refine ⟨?_, hb1, hb2, ?_, ?_, ?_⟩
    · intro a' n' h'
      have hl : a'.length = 0 ∨ n'.length = 0 := by
        rcases h' with h' | h' <;> simp [h']
      unfold mkRandomDirectoryNameGenerator
      rw [if_pos hl]
    · simp [generate, pickOne, hga.1, hga.2]
    · rw [pickOne, hga.1, List.getD_eq_getElem _ _ hb1]
      exact List.getElem_mem _
    · rw [pickOne, hga.2, List.getD_eq_getElem _ _ hb2]
      exact List.getElem_mem _

/-- Witness for C9 at a concrete generator and the sample `0`. -/
theorem claim_C9_witness :
    generate { adjectives := ["brisk"], nouns := ["atlas"] } 0 0 =
      ["brisk"].getD (Int.toNat ⌊(0 : ℚ) * ((["brisk"] : List String).length : ℚ)⌋) "undefined"
        ++ "-" ++
        ["atlas"].getD (Int.toNat ⌊(0 : ℚ) * ((["atlas"] : List String).length : ℚ)⌋) "undefined" ∧
    pickOne ["brisk"] 0 ∈ (["brisk"] : List String) :=
  ⟨(claim_C9 ["brisk"] ["atlas"] { adjectives := ["brisk"], nouns := ["atlas"] } 0 0
      rfl (le_refl 0) zero_lt_one (le_refl 0) zero_lt_one).2.2.2.1,
   (claim_C9 ["brisk"] ["atlas"] { adjectives := ["brisk"], nouns := ["atlas"] } 0 0
      rfl (le_refl 0) zero_lt_one (le_refl 0) zero_lt_one).2.2.2.2.1⟩

/-- The per-entry outcome trace pairs exactly the snapshot sources, in
order. -/
theorem entryOutcomes_fst (W : Type) (f : String → EState W → StepResult W String)
    (sel : List String) (s : EState W) :
    (entryOutcomes f sel s).1.map Prod.fst = sel := by
  induction sel generalizing s with
  | nil => rfl
  | cons a rest ih =>
    simp only [entryOutcomes]
    cases f a s with
    | ok v s1 => simpa using ih s1
    | error e s1 => simpa using ih s1

/-- `runOperation` is the projection of the outcome trace: `processed` and
`failed` are its two order-preserving sublists and the final state agrees. -/
theorem runOperation_eq_outcomes (W : Type) (f : String → EState W → StepResult W String)
    (sel : List String) (s : EState W) :
    runOperation f sel s =
      ({ processed := (entryOutcomes f sel s).1.filterMap (fun o => o.2.toOption),
         failed := (entryOutcomes f sel s).1.filterMap (fun o =>
           match o.2 with
           | .error e => some { path := o.1, error := e }
           | .ok _ => none) },
       (entryOutcomes f sel s).2) := by
  induction sel generalizing s with
  | nil => rfl
  | cons a rest ih =>
    simp only [runOperation, entryOutcomes]
    cases f a s with
    | ok v s1 => simp [ih s1, List.filterMap_cons, Except.toOption]
    | error e s1 => simp [ih s1, List.filterMap_cons, Except.toOption]

/-- A `filterMap` that only ever keeps `h x` is an order-preserving sublist
of the corresponding `map`. -/
theorem filterMap_sublist_map {α β : Type} (l : List α) (g : α → Option β) (h : α → β)
    (hg : ∀ x y, g x = some y → y = h x) : (l.filterMap g).Sublist (l.map h) := by
  induction l with
  | nil => simp
  | cons a t ih =>
    cases hga : g a with
    | none =>
      rw [List.filterMap_cons_none hga, List.map_cons]
      exact ih.cons _
    | some y =>
      rw [List.filterMap_cons_some hga, hg a y hga, List.map_cons]
      exact ih.cons₂ _

/-- Claim C8: in every bulk loop, a per-entry failure is captured into that
entry's `failed` slot and never aborts the remaining entries — the run
always produces an `OperationResult` covering the whole snapshot in
snapshot order, `processed` and `failed` being the order-preserving
projections of the per-entry outcome trace (in particular the failed paths
form a sublist of the snapshot). -/
theorem claim_C8 (W : Type) (f : String → EState W → StepResult W String)
    (sel : List String) (s : EState W) :
    (entryOutcomes f sel s).1.map Prod.fst = sel ∧
    (runOperation f sel s).1.processed =
      (entryOutcomes f sel s).1.filterMap (fun o => o.2.toOption) ∧
    (runOperation f sel s).1.failed =
      (entryOutcomes f sel s).1.filterMap (fun o =>
        match o.2 with
        | .error e => some { path := o.1, error := e }
        | .ok _ => none) ∧
    ((runOperation f sel s).1.failed.map OperationFailure.path).Sublist sel ∧
    (runOperation f sel s).2 = (entryOutcomes f sel s).2 := by
  have hro := runOperation_eq_outcomes W f sel s
  have hfst := entryOutcomes_fst W f sel s
  refine ⟨hfst, by rw [hro], by rw [hro], ?_, by rw [hro]⟩
  rw [hro]
  simp only [List.map_filterMap]
  have hsub := filterMap_sublist_map (entryOutcomes f sel s).1
    (fun o => Option.map OperationFailure.path
      (match o.2 with
        | .error e => some { path := o.1, error := e }
        | .ok _ => none))
    Prod.fst ?_
  · rw [hfst] at hsub
    exact hsub
  · intro x y hxy
    rcases x with ⟨src, o⟩
    cases o with
    | ok v => simp at hxy
    | error e =>
      simp only [Option.map_some] at hxy
      cases hxy
      rfl

/-- Claim C1 corrected at a concrete run: a fully successful
`copySelection` of `/root/a.txt` into `/dest` reports
`processed = ["/dest/a.txt"]` and no failures, so the union of `processed`
and the failed paths is `{/dest/a.txt}`, not the snapshot
`{/root/a.txt}` — `processed` holds destination paths for copy and move. -/
theorem claim_C1_counterexample :
    copySelection eng0 5 (some "/dest") st0
      = .ok { processed := ["/dest/a.txt"], failed := [] } st0 ∧
    ¬ ((["/dest/a.txt"] : List String).toFinset ∪
        ((([] : List OperationFailure)).map OperationFailure.path).toFinset
        = st0.selection.toFinset) := by
  constructor
  · rfl
  · decide

/-- Every performer value of a successful entry equal to its source (as for
the delete performer) makes `processed ++ failed paths` a permutation of the
snapshot. -/
theorem runOperation_perm (W : Type) (f : String → EState W → StepResult W String)
    (hsrc : ∀ src st v st', f src st = .ok v st' → v = src)
    (sel : List String) (s : EState W) :
    ((runOperation f sel s).1.processed ++
      (runOperation f sel s).1.failed.map OperationFailure.path).Perm sel := by
  induction sel generalizing s with
  | nil => simp [runOperation]
  | cons a rest ih =>
    simp only [runOperation]
    cases hf : f a s with
    | ok v s1 =>
      have hv := hsrc a s v s1 hf
      rw [hv]
      simpa using (ih s1).cons a
    | error e s1 =>
      refine List.Perm.trans ?_ ((ih s1).cons a)
      simp

/-- The total count of outcomes equals the snapshot length. -/
theorem runOperation_length (W : Type) (f : String → EState W → StepResult W String)
    (sel : List String) (s : EState W) :
    (runOperation f sel s).1.processed.length
      + (runOperation f sel s).1.failed.length = sel.length := by
  induction sel generalizing s with
  | nil => rfl
  | cons a rest ih =>
    simp only [runOperation]
    cases f a s with
    | ok v s1 =>
      simp only [List.length_cons]
      have := ih s1
      omega
    | error e s1 =>
      simp only [List.length_cons]
      have := ih s1
      omega

/-- The delete performer's success value is always the source path. -/
theorem deletePerformer_ok_src (W : Type) (eng : Engine W) :
    ∀ src st v st', deletePerformer eng src st = .ok v st' → v = src := by
  intro src st v st' h
  unfold deletePerformer at h
  cases hrm : eng.port.rm st.world src with
  | error e => rw [hrm] at h; cases h
  | ok w => rw [hrm] at h; cases h; rfl

/-- Claim C1 (amended): every snapshot entry is reflected exactly once in
the `OperationResult` — `|processed| + |failed| = |snapshot|` for every bulk
run — and for `deleteSelection`, whose processed values are the source paths
themselves, `processed ∪ failed-paths` is exactly (a permutation of) the
snapshot.  (For copy and move, `processed` holds destination paths, so only
the counting form of the invariant holds.) -/
theorem claim_C1_amended (W : Type) (eng : Engine W)
    (f : String → EState W → StepResult W String) (sel : List String)
    (s t : EState W) (r : OperationResult)
    (hdel : deleteSelection eng s = .ok r t) :
    ((runOperation f sel s).1.processed.length
      + (runOperation f sel s).1.failed.length = sel.length) ∧
    (r.processed ++ r.failed.map OperationFailure.path).Perm s.selection := by
  refine ⟨runOperation_length W f sel s, ?_⟩
  by_cases hsel : s.selection.isEmpty
  · simp [deleteSelection, hsel] at hdel
  · simp only [deleteSelection, hsel, Bool.false_eq_true, if_false] at hdel
    cases hdel
    exact runOperation_perm W (deletePerformer eng) (deletePerformer_ok_src W eng)
      s.selection s

/-- Witness for C1 (amended) at a concrete delete run. -/
theorem claim_C1_witness :
    ((runOperation (deletePerformer eng0) ["/x"] st0).1.processed.length
      + (runOperation (deletePerformer eng0) ["/x"] st0).1.failed.length = 1) ∧
    ((["/root/a.txt"] ++ ([] : List OperationFailure).map OperationFailure.path).Perm
      st0.selection) :=
  claim_C1_amended Unit eng0 (deletePerformer eng0) ["/x"] st0
    { world := (), selection := [], rng := 0 }
    { processed := ["/root/a.txt"], failed := [] } rfl

/-- Witness for C7: a concrete successful rename, a concrete failing rename
falling back to copy-then-remove, and the concrete move callback after a
failing rename. -/
theorem claim_C7_witness :
    (moveEntryW port0 3 "/a/x" "/d/x" () = (.ok (), ()) ∧
      moveEntryW portRenameFails 3 "/a/x" "/d/x" ()
        = copyThenRemoveW portRenameFails 3 "/a/x" "/d/x" ()) ∧
    movePerformer engRF 3 "/d" "/a/x" st0
      = .ok "/d/x" { world := (), selection := ["/root/a.txt", "/d/x"], rng := 0 } :=
  ⟨⟨(claim_C7 Unit port0 eng0 3 "/a/x" "/d/x" "/d" () () st0 "e").1 rfl,
    (claim_C7 Unit portRenameFails eng0 3 "/a/x" "/d/x" "/d" () () st0 "EXDEV").2.1 rfl⟩,
   (claim_C7 Unit portRenameFails engRF 3 "/a/x" "/d/x" "/d" () () st0 "EXDEV").2.2 rfl⟩

/-- If the first `i` random candidates collide and the `i`-th is free, the
random-trial loop accepts the `i`-th candidate after exactly `i + 1`
generator calls. -/
theorem tryRandomLoop_finds (W : Type) (eng : Engine W) (w : W) (parent : String)
    (i : Nat) : ∀ (n rng : Nat) (last : Option String), i < n →
    (∀ j, j < i → eng.port.existsPath w (pathJoin parent (eng.nameGen (rng + j))) = true) →
    eng.port.existsPath w (pathJoin parent (eng.nameGen (rng + i))) = false →
    tryRandomLoop eng w parent n rng last =
      (some (pathJoin parent (eng.nameGen (rng + i))),
        some (eng.nameGen (rng + i)), rng + i + 1) := by
  induction i with
  | zero =>
    intro n rng last hn hall hfree
    cases n with
    | zero => omega
    | succ m =>
      rw [Nat.add_zero] at hfree
      simp only [tryRandomLoop, hfree]
      simp
  | succ i ih =>
    intro n rng last hn hall hfree
    cases n with
    | zero => omega
    | succ m =>
      have h0 : eng.port.existsPath w (pathJoin parent (eng.nameGen rng)) = true := by
        have := hall 0 (by omega)
        rwa [Nat.add_zero] at this
      simp only [tryRandomLoop, h0]
      simp only [if_true]
      have harith : rng + 1 + i = rng + (i + 1) := by omega
      have hrec := ih m (rng + 1) (some (eng.nameGen rng)) (by omega)
        (fun j hj => by
          have := hall (j + 1) (by omega)
          rwa [show rng + (j + 1) = rng + 1 + j by omega] at this)
        (by rwa [harith])
      rw [harith] at hrec
      exact hrec

/-- If all `m + 1` random candidates collide, the loop returns no candidate,
reports the last tried name, and has made `m + 1` generator calls. -/
theorem tryRandomLoop_all_collide (W : Type) (eng : Engine W) (w : W) (parent : String)
    (m : Nat) : ∀ (rng : Nat) (last : Option String),
    (∀ j, j < m + 1 → eng.port.existsPath w (pathJoin parent (eng.nameGen (rng + j))) = true) →
    tryRandomLoop eng w parent (m + 1) rng last =
      (none, some (eng.nameGen (rng + m)), rng + (m + 1)) := by
  induction m with
  | zero =>
    intro rng last hall
    have h0 : eng.port.existsPath w (pathJoin parent (eng.nameGen rng)) = true := by
      have := hall 0 (by omega)
      rwa [Nat.add_zero] at this
    simp only [tryRandomLoop, h0]
    simp
  | succ m ih =>
    intro rng last hall
    have h0 : eng.port.existsPath w (pathJoin parent (eng.nameGen rng)) = true := by
      have := hall 0 (by omega)
      rwa [Nat.add_zero] at this
    simp only [tryRandomLoop, h0]
    simp only [if_true]
    have hrec := ih (rng + 1) (some (eng.nameGen rng))
      (fun j hj => by
        have := hall (j + 1) (by omega)
        rwa [show rng + (j + 1) = rng + 1 + j by omega] at this)
    rw [show rng + 1 + m = rng + (m + 1) by omega,
      show rng + 1 + (m + 1) = rng + (m + 1 + 1) by omega] at hrec
    exact hrec

/-- The random-trial loop makes at most `n` generator calls. -/
theorem tryRandomLoop_rng_le (W : Type) (eng : Engine W) (w : W) (parent : String) :
    ∀ (n rng : Nat) (last : Option String),
    (tryRandomLoop eng w parent n rng last).2.2 ≤ rng + n := by
  intro n
  induction n with
  | zero => intro rng last; simp [tryRandomLoop]
  | succ m ih =>
    intro rng last
    by_cases hx : eng.port.existsPath w (pathJoin parent (eng.nameGen rng)) = true
    · simp only [tryRandomLoop, hx, if_true]
      have := ih (rng + 1) (some (eng.nameGen rng))
      omega
    · rw [Bool.not_eq_true] at hx
      simp only [tryRandomLoop, hx]
      simp only [Bool.false_eq_true, if_false]
      omega

/-- After at least one trial, the loop always reports a last tried name. -/
theorem tryRandomLoop_last_some (W : Type) (eng : Engine W) (w : W) (parent : String)
    (m : Nat) : ∀ (rng : Nat) (last : Option String),
    ∃ nm, (tryRandomLoop eng w parent (m + 1) rng last).2.1 = some nm := by
  induction m with
  | zero =>
    intro rng last
    by_cases hx : eng.port.existsPath w (pathJoin parent (eng.nameGen rng)) = true
    · simp [tryRandomLoop, hx]
    · rw [Bool.not_eq_true] at hx
      simp [tryRandomLoop, hx]
  | succ m ih =>
    intro rng last
    by_cases hx : eng.port.existsPath w (pathJoin parent (eng.nameGen rng)) = true
    · simp only [tryRandomLoop, hx, if_true]
      exact ih (rng + 1) (some (eng.nameGen rng))
    · rw [Bool.not_eq_true] at hx
      simp [tryRandomLoop, hx]

/-- If suffixes `suffix, ..., k - 1` collide and `k` is free, the numbered
loop returns the `k`-th numbered candidate (given fuel to reach it). -/
theorem numberedLoop_finds (W : Type) (p : FsPort W) (w : W) (parent base : String)
    (k : Nat) : ∀ (fuel suffix : Nat), suffix ≤ k → k < suffix + fuel →
    (∀ m, suffix ≤ m → m < k →
      p.existsPath w (pathJoin parent (base ++ "-" ++ toString m)) = true) →
    p.existsPath w (pathJoin parent (base ++ "-" ++ toString k)) = false →
    numberedLoop p w parent base suffix fuel =
      .ok (pathJoin parent (base ++ "-" ++ toString k)) := by
  intro fuel
  induction fuel with
  | zero => intro suffix h1 h2 _ _; omega
  | succ f ih =>
    intro suffix h1 h2 hall hfree
    by_cases hsk : suffix = k
    · subst hsk
      simp [numberedLoop, hfree]
    · have hcol := hall suffix (le_refl _) (by omega)
      simp only [numberedLoop, hcol, if_true]
      exact ih (suffix + 1) (by omega) (by omega)
        (fun m hm1 hm2 => hall m (by omega) hm2) hfree

/-- If some reachable suffix is free, the numbered loop terminates with a
free candidate. -/
theorem numberedLoop_terminates (W : Type) (p : FsPort W) (w : W) (parent base : String) :
    ∀ (fuel suffix k : Nat), suffix ≤ k → k < suffix + fuel →
    p.existsPath w (pathJoin parent (base ++ "-" ++ toString k)) = false →
    ∃ c, numberedLoop p w parent base suffix fuel = .ok c ∧
      p.existsPath w c = false := by
  intro fuel
  induction fuel with
  | zero => intro suffix k h1 h2 _; omega
  | succ f ih =>
    intro suffix k h1 h2 hfree
    by_cases hx : p.existsPath w (pathJoin parent (base ++ "-" ++ toString suffix)) = true
    · have hsk : suffix ≠ k := by
        intro h
        rw [h, hfree] at hx
        cases hx
      simp only [numberedLoop, hx, if_true]
      exact ih (suffix + 1) k (by omega) (by omega) hfree
    · rw [Bool.not_eq_true] at hx
      exact ⟨_, by simp [numberedLoop, hx], hx⟩

/-- Claim C5: with no explicit destination root, destination resolution
performs at most 10 random-name trials in the first snapshot entry's parent
directory, accepting the first generated name reported absent; if all 10
collide it returns the first free `<last tried random name>-k`, re-checking
existence per suffix, with the generator counter stopped at exactly 10
calls (never re-invoked in the numeric phase) and never exceeding 10 calls
in any outcome. -/
theorem claim_C5 (W : Type) (eng : Engine W) (fuel : Nat) (w : W)
    (sel : List String) (rng : Nat) :
    (∀ i, i < 10 →
      (∀ j, j < i → eng.port.existsPath w
        (pathJoin (dirname (sel.headD "")) (eng.nameGen (rng + j))) = true) →
      eng.port.existsPath w
        (pathJoin (dirname (sel.headD "")) (eng.nameGen (rng + i))) = false →
      resolveDestination eng fuel w sel none rng =
        (.ok (pathJoin (dirname (sel.headD "")) (eng.nameGen (rng + i))), rng + i + 1)) ∧
    ((∀ j, j < 10 → eng.port.existsPath w
        (pathJoin (dirname (sel.headD "")) (eng.nameGen (rng + j))) = true) →
      ∀ k, 1 ≤ k → k ≤ fuel →
      (∀ m, 1 ≤ m → m < k → eng.port.existsPath w
        (pathJoin (dirname (sel.headD ""))
          (eng.nameGen (rng + 9) ++ "-" ++ toString m)) = true) →
      eng.port.existsPath w
        (pathJoin (dirname (sel.headD ""))
          (eng.nameGen (rng + 9) ++ "-" ++ toString k)) = false →
      resolveDestination eng fuel w sel none rng =
        (.ok (pathJoin (dirname (sel.headD ""))
          (eng.nameGen (rng + 9) ++ "-" ++ toString k)), rng + 10)) ∧
    (resolveDestination eng fuel w sel none rng).2 ≤ rng + 10 := by
  refine ⟨?_, ?_, ?_⟩
  · intro i hi hall hfree
    have h := tryRandomLoop_finds W eng w (dirname (sel.headD "")) i 10 rng none hi hall hfree
    simp only [resolveDestination, truthy, Bool.false_eq_true, if_false,
      tryRandomDestination, h]
  · intro hall k hk1 hkf hmall hfree
    have h := tryRandomLoop_all_collide W eng w (dirname (sel.headD "")) 9 rng none hall
    have hn := numberedLoop_finds W eng.port w (dirname (sel.headD ""))
      (eng.nameGen (rng + 9)) k fuel 1 hk1 (by omega) hmall hfree
    simp only [resolveDestination, truthy, Bool.false_eq_true, if_false,
      tryRandomDestination, h, generateNumberedDestination, hn]
  · rcases h10 : tryRandomDestination eng w (dirname (sel.headD "")) rng with ⟨c, ln, rng'⟩
    have hle : rng' ≤ rng + 10 := by
      have := tryRandomLoop_rng_le W eng w (dirname (sel.headD "")) 10 rng none
      rw [tryRandomDestination] at h10
      rw [h10] at this
      exact this
    cases c with
    | some cand =>
      simp only [resolveDestination, truthy, Bool.false_eq_true, if_false, h10]
      exact hle
    | none =>
      cases ln with
      | some nm =>
        simp only [resolveDestination, truthy, Bool.false_eq_true, if_false, h10,
          generateNumberedDestination]
        exact hle
      | none =>
        exfalso
        obtain ⟨nm, hnm⟩ := tryRandomLoop_last_some W eng w (dirname (sel.headD "")) 9 rng none
        rw [tryRandomDestination] at h10
        rw [h10] at hnm
        cases hnm

/-- Witness for C5: a constant generator with the single colliding path
`/root/n`, so all 10 random trials collide and the first numbered suffix
`n-1` is taken, with the counter advanced by exactly 10. -/
theorem claim_C5_witness :
    resolveDestination engN 1 () ["/root/a.txt"] none 0 = (.ok "/root/n-1", 10) :=
  (claim_C5 Unit engN 1 () ["/root/a.txt"] 0).2.1
    (fun _ _ => rfl) 1 (le_refl 1) (le_refl 1)
    (fun _ hm1 hm2 => absurd hm2 (Nat.not_lt.mpr hm1)) rfl

/-- Claim C6: if every random trial collides, the numbered fallback reaches
a free name after finitely many steps whenever some numeric suffix of the
last random stem is reported absent by the filesystem port: with any fuel
bound reaching that suffix, `generateNumberedDestination` returns a free
candidate and makes no further generator calls. -/
theorem claim_C6 (W : Type) (eng : Engine W) (w : W) (parentDirectory baseName : String)
    (rng fuel k : Nat) (hk1 : 1 ≤ k) (hkf : k ≤ fuel)
    (hfree : eng.port.existsPath w
      (pathJoin parentDirectory (baseName ++ "-" ++ toString k)) = false) :
    ∃ c, generateNumberedDestination eng fuel w parentDirectory (some baseName) rng
        = (.ok c, rng) ∧ eng.port.existsPath w c = false := by
  obtain ⟨c, hc, hfc⟩ := numberedLoop_terminates W eng.port w parentDirectory baseName
    fuel 1 k hk1 (by omega) hfree
  exact ⟨c, by simp [generateNumberedDestination, hc], hfc⟩

/-- Witness for C6: the concrete constant-name engine, where suffix `1` is
free. -/
theorem claim_C6_witness :
    ∃ c, generateNumberedDestination engN 1 () "/root" (some "n") 0 = (.ok c, 0) ∧
      engN.port.existsPath () c = false :=
  claim_C6 Unit engN () "/root" "n" 0 1 1 (le_refl 1) (le_refl 1) rfl

/-- Membership in the `Set.add` model. -/
theorem setAdd_mem (l : List String) (a x : String) :
    x ∈ setAdd l a ↔ x = a ∨ x ∈ l := by
  unfold setAdd
  by_cases h : a ∈ l
  · rw [if_pos h]
    constructor
    · exact Or.inr
    · rintro (rfl | hx)
      exacts [h, hx]
  · rw [if_neg h]
    simp [or_comm]

/-- `Set.add` preserves duplicate-freeness. -/
theorem setAdd_nodup (l : List String) (a : String) (h : l.Nodup) :
    (setAdd l a).Nodup := by
  unfold setAdd
  by_cases ha : a ∈ l
  · rwa [if_pos ha]
  · rw [if_neg ha]
    simp [List.nodup_append, h, ha]

/-- A successful move callback returns the target and updates the selection
by erasing the source and inserting the target. -/
theorem movePerformer_ok_state (W : Type) (eng : Engine W) (fuel : Nat)
    (D a : String) (s : EState W) (v : String) (t : EState W)
    (h : movePerformer eng fuel D a s = .ok v t) :
    v = pathJoin D (basename a) ∧
    t.selection = setAdd (s.selection.erase a) (pathJoin D (basename a)) ∧
    t.rng = s.rng := by
  unfold movePerformer at h
  rcases hm : moveEntryW eng.port fuel a (pathJoin D (basename a)) s.world with ⟨res, w1⟩
  rw [hm] at h
  cases res with
  | ok u =>
    cases h
    exact ⟨rfl, rfl, rfl⟩
  | error e => cases h

/-- A failed move callback leaves the selection untouched. -/
theorem movePerformer_error_state (W : Type) (eng : Engine W) (fuel : Nat)
    (D a : String) (s : EState W) (e : String) (t : EState W)
    (h : movePerformer eng fuel D a s = .error e t) :
    t.selection = s.selection := by
  unfold movePerformer at h
  rcases hm : moveEntryW eng.port fuel a (pathJoin D (basename a)) s.world with ⟨res, w1⟩
  rw [hm] at h
  cases res with
  | ok u => cases h
  | error e2 =>
    cases h
    rfl

/-- Every processed value of a move run is the target of some snapshot
source. -/
theorem movePerformer_processed_image (W : Type) (eng : Engine W) (fuel : Nat)
    (D : String) : ∀ (srcs : List String) (s : EState W) (y : String),
    y ∈ (runOperation (movePerformer eng fuel D) srcs s).1.processed →
    ∃ a, a ∈ srcs ∧ y = pathJoin D (basename a) := by
  intro srcs
  induction srcs with
  | nil =>
    intro s y hy
    simp [runOperation] at hy
  | cons a rest ih =>
    intro s y hy
    cases hf : movePerformer eng fuel D a s with
    | ok v s1 =>
      simp only [runOperation, hf] at hy
      rcases List.mem_cons.mp hy with rfl | hy'
      · exact ⟨a, List.mem_cons_self a rest, (movePerformer_ok_state W eng fuel D a s _ _ hf).1⟩
      · obtain ⟨b, hb, hyb⟩ := ih s1 y hy'
        exact ⟨b, List.mem_cons_of_mem a hb, hyb⟩
    | error e s1 =>
      simp only [runOperation, hf] at hy
      obtain ⟨b, hb, hyb⟩ := ih s1 y hy
      exact ⟨b, List.mem_cons_of_mem a hb, hyb⟩

/-- A failed path of any bulk run is one of the snapshot sources. -/
theorem runOperation_failed_subset (W : Type)
    (f : String → EState W → StepResult W String) :
    ∀ (srcs : List String) (s : EState W) (y : String),
    y ∈ (runOperation f srcs s).1.failed.map OperationFailure.path → y ∈ srcs := by
  intro srcs
  induction srcs with
  | nil =>
    intro s y hy
    simp [runOperation] at hy
  | cons a rest ih =>
    intro s y hy
    cases hf : f a s with
    | ok v s1 =>
      simp only [runOperation, hf] at hy
      exact List.mem_cons_of_mem a (ih s1 y hy)
    | error e s1 =>
      simp only [runOperation, hf, List.map_cons] at hy
      rcases List.mem_cons.mp hy with rfl | hy'
      · exact List.mem_cons_self _ _
      · exact List.mem_cons_of_mem _ (ih s1 y hy')

/-- The selection invariant of the move loop: a path ends up selected
exactly when it was selected and its entry failed (or it was not a snapshot
entry at all), or it is one of the inserted destination targets; the
selection stays duplicate-free.  The aliasing hypothesis says no snapshot
source is also a computed destination target. -/
theorem moveLoop_selection (W : Type) (eng : Engine W) (fuel : Nat) (D : String) :
    ∀ (srcs : List String) (s : EState W),
    srcs.Nodup →
    (∀ a ∈ srcs, pathJoin D (basename a) ∉ srcs) →
    s.selection.Nodup →
    ((runOperation (movePerformer eng fuel D) srcs s).2.selection.Nodup ∧
     ∀ x, x ∈ (runOperation (movePerformer eng fuel D) srcs s).2.selection ↔
       ((x ∈ s.selection ∧ (x ∈ srcs →
          x ∈ (runOperation (movePerformer eng fuel D) srcs s).1.failed.map
            OperationFailure.path)) ∨
        x ∈ (runOperation (movePerformer eng fuel D) srcs s).1.processed)) := by
  intro srcs
  induction srcs with
  | nil =>
    intro s _ _ hnd
    refine ⟨hnd, fun x => ?_⟩
    simp [runOperation]
  | cons a rest ih =>
    intro s hndsrc halias hnd
    have hndrest : rest.Nodup := (List.nodup_cons.mp hndsrc).2
    have hanotin : a ∉ rest := (List.nodup_cons.mp hndsrc).1
    have haliasrest : ∀ b ∈ rest, pathJoin D (basename b) ∉ rest := by
      intro b hb hmem
      exact halias b (List.mem_cons_of_mem a hb) (List.mem_cons_of_mem a hmem)
    have hTa : pathJoin D (basename a) ∉ a :: rest := halias a (List.mem_cons_self a rest)
    cases hf : movePerformer eng fuel D a s with
    | ok v s1 =>
      obtain ⟨hv, hsel1, -⟩ := movePerformer_ok_state W eng fuel D a s v s1 hf
      have hnd1 : s1.selection.Nodup := by
        rw [hsel1]
        exact setAdd_nodup _ _ (hnd.erase a)
      obtain ⟨ihnd, ihiff⟩ := ih s1 hndrest haliasrest hnd1
      constructor
      · simpa only [runOperation, hf] using ihnd
      · intro x
        simp only [runOperation, hf]
        have haF : a ∉ (runOperation (movePerformer eng fuel D) rest s1).1.failed.map
            OperationFailure.path := by
          intro hmem
          exact hanotin (runOperation_failed_subset W _ rest s1 a hmem)
        have haP : a ∉ (runOperation (movePerformer eng fuel D) rest s1).1.processed := by
          intro hmem
          obtain ⟨b, hb, hab⟩ := movePerformer_processed_image W eng fuel D rest s1 a hmem
          exact halias b (List.mem_cons_of_mem a hb) (hab ▸ List.mem_cons_self a rest)
      -- membership in s1's selection, unfolded
        have hmem1 : ∀ y, y ∈ s1.selection ↔
            (y = pathJoin D (basename a) ∨ (y ∈ s.selection ∧ y ≠ a)) := by
          intro y
          rw [hsel1, setAdd_mem, hnd.mem_erase_iff, and_comm]
        constructor
        · intro hx
          rcases (ihiff x).mp hx with ⟨hx1, himp⟩ | hxP
          · rcases (hmem1 x).mp hx1 with rfl | ⟨hxs, hxa⟩
            · exact Or.inr (hv ▸ List.mem_cons_self _ _)
            · refine Or.inl ⟨hxs, fun hmem => ?_⟩
              rcases List.mem_cons.mp hmem with rfl | hr
              · exact absurd rfl hxa
              · exact himp hr
          · exact Or.inr (List.mem_cons_of_mem _ hxP)
        · intro hx
          rcases hx with ⟨hxs, himp⟩ | hxP
          · by_cases hxa : x = a
            · subst hxa
              exact absurd (himp (List.mem_cons_self x rest)) haF
            · refine (ihiff x).mpr (Or.inl ⟨(hmem1 x).mpr (Or.inr ⟨hxs, hxa⟩), fun hr => ?_⟩)
              exact himp (List.mem_cons_of_mem a hr)
          · rcases List.mem_cons.mp hxP with rfl | hxP'
            · refine (ihiff x).mpr (Or.inl ⟨(hmem1 x).mpr (Or.inl hv), fun hr => ?_⟩)
              exact absurd (hv ▸ hr) (fun hmem => hTa (List.mem_cons_of_mem a hmem))
            · exact (ihiff x).mpr (Or.inr hxP')
    | error e s1 =>
      have hsel1 := movePerformer_error_state W eng fuel D a s e s1 hf
      have hnd1 : s1.selection.Nodup := hsel1 ▸ hnd
      obtain ⟨ihnd, ihiff⟩ := ih s1 hndrest haliasrest hnd1
      constructor
      · simpa only [runOperation, hf] using ihnd
      · intro x
        simp only [runOperation, hf, List.map_cons]
        constructor
        · intro hx
          rcases (ihiff x).mp hx with ⟨hx1, himp⟩ | hxP
          · refine Or.inl ⟨hsel1 ▸ hx1, fun hmem => ?_⟩
            rcases List.mem_cons.mp hmem with rfl | hr
            · exact List.mem_cons_self _ _
            · exact List.mem_cons_of_mem _ (himp hr)
          · exact Or.inr hxP
        · intro hx
          rcases hx with ⟨hxs, himp⟩ | hxP
          · refine (ihiff x).mpr (Or.inl ⟨hsel1 ▸ hxs, fun hr => ?_⟩)
            rcases List.mem_cons.mp (himp (List.mem_cons_of_mem a hr)) with rfl | hF
            · exact absurd hr hanotin
            · exact hF
          · exact (ihiff x).mpr (Or.inr hxP)

/-- A successful delete callback returns the source and erases it from the
selection. -/
theorem deletePerformer_ok_state (W : Type) (eng : Engine W) (a : String)
    (s : EState W) (v : String) (t : EState W)
    (h : deletePerformer eng a s = .ok v t) :
    v = a ∧ t.selection = s.selection.erase a := by
  unfold deletePerformer at h
  cases hrm : eng.port.rm s.world a with
  | error e =>
    rw [hrm] at h
    cases h
  | ok w =>
    rw [hrm] at h
    cases h
    exact ⟨rfl, rfl⟩

/-- A failed delete callback leaves the state untouched. -/
theorem deletePerformer_error_state (W : Type) (eng : Engine W) (a : String)
    (s : EState W) (e : String) (t : EState W)
    (h : deletePerformer eng a s = .error e t) : t = s := by
  unfold deletePerformer at h
  cases hrm : eng.port.rm s.world a with
  | error e2 =>
    rw [hrm] at h
    cases h
    rfl
  | ok w =>
    rw [hrm] at h
    cases h

/-- The delete loop's final selection is the initial one restricted to paths
whose removal did not succeed. -/
theorem deleteLoop_selection (W : Type) (eng : Engine W) :
    ∀ (srcs : List String) (s : EState W), s.selection.Nodup →
    ((runOperation (deletePerformer eng) srcs s).2.selection =
      s.selection.filter (fun p =>
        decide (p ∉ (runOperation (deletePerformer eng) srcs s).1.processed)) ∧
     (runOperation (deletePerformer eng) srcs s).2.selection.Nodup) := by
  intro srcs
  induction srcs with
  | nil =>
    intro s hnd
    refine ⟨?_, hnd⟩
    simp [runOperation]
  | cons a rest ih =>
    intro s hnd
    cases hf : deletePerformer eng a s with
    | ok v s1 =>
      obtain ⟨hv, hsel1⟩ := deletePerformer_ok_state W eng a s v s1 hf
      have hnd1 : s1.selection.Nodup := hsel1 ▸ hnd.erase a
      obtain ⟨ihsel, ihnd⟩ := ih s1 hnd1
      have herase : s1.selection = s.selection.filter (· != a) := by
        rw [hsel1, hnd.erase_eq_filter]
      refine ⟨?_, by simpa only [runOperation, hf] using ihnd⟩
      simp only [runOperation, hf, hv]
      rw [ihsel, herase, List.filter_filter]
      refine List.filter_congr (fun x _ => ?_)
      by_cases hxa : x = a
      · subst hxa
        simp
      · by_cases hxp : x ∈ (runOperation (deletePerformer eng) rest s1).1.processed
        · simp [hxa, hxp]
        · simp [hxa, hxp]
    | error e s1 =>
      have hst := deletePerformer_error_state W eng a s e s1 hf
      subst hst
      obtain ⟨ihsel, ihnd⟩ := ih s1 hnd
      exact ⟨by simpa only [runOperation, hf] using ihsel,
        by simpa only [runOperation, hf] using ihnd⟩

/-- The copy callback never touches the selection or the generator. -/
theorem copyPerformer_selection (W : Type) (eng : Engine W) (fuel : Nat)
    (D a : String) (s : EState W) :
    (∀ v t, copyPerformer eng fuel D a s = .ok v t → t.selection = s.selection) ∧
    (∀ e t, copyPerformer eng fuel D a s = .error e t → t.selection = s.selection) := by
  unfold copyPerformer
  rcases hc : copyEntryRecursiveW eng.port fuel a (pathJoin D (basename a)) s.world
    with ⟨res, w1⟩
  cases res with
  | ok u =>
    refine ⟨fun v t h => ?_, fun e t h => ?_⟩ <;> cases h
    rfl
  | error e2 =>
    refine ⟨fun v t h => ?_, fun e t h => ?_⟩ <;> cases h
    rfl

/-- A run whose callback preserves the selection preserves the selection. -/
theorem runOperation_sel_invariant (W : Type)
    (f : String → EState W → StepResult W String)
    (hf : ∀ a s, (∀ v t, f a s = .ok v t → t.selection = s.selection) ∧
      (∀ e t, f a s = .error e t → t.selection = s.selection)) :
    ∀ (srcs : List String) (s : EState W),
    (runOperation f srcs s).2.selection = s.selection := by
  intro srcs
  induction srcs with
  | nil => intro s; rfl
  | cons a rest ih =>
    intro s
    cases hfa : f a s with
    | ok v s1 =>
      have h1 := (hf a s).1 v s1 hfa
      simp only [runOperation, hfa]
      rw [ih s1, h1]
    | error e s1 =>
      have h1 := (hf a s).2 e s1 hfa
      simp only [runOperation, hfa]
      rw [ih s1, h1]

/-- A truthy destination root is resolved and used directly, without
consuming randomness. -/
theorem resolveDestination_truthy (W : Type) (eng : Engine W) (fuel : Nat)
    (w : W) (selm : List String) (d : String) (rng : Nat)
    (hd : truthy (some d) = true) :
    resolveDestination eng fuel w selm (some d) rng =
      (.ok (pathResolve eng.cwd d), rng) := by
  simp [resolveDestination, hd]

/-- Claim C3: after a bulk operation, failed paths remain selected;
`deleteSelection` removes exactly the successfully removed sources;
`moveSelection` (to a caller-supplied root that does not alias back into the
selection) removes each successful source and inserts its destination, with
membership given exactly by "failed entries stay, destinations of
successful entries are inserted"; `copySelection` leaves the selection
entirely unchanged regardless of per-entry outcomes. -/
theorem claim_C3 (W : Type) (eng : Engine W) (fuel : Nat) :
    (∀ (destinationRoot : Option String) (s t : EState W) (r : OperationResult),
      copySelection eng fuel destinationRoot s = .ok r t →
      t.selection = s.selection) ∧
    (∀ (s t : EState W) (r : OperationResult), s.selection.Nodup →
      deleteSelection eng s = .ok r t →
      t.selection = s.selection.filter (fun p => decide (p ∉ r.processed))) ∧
    (∀ (d : String) (s t : EState W) (r : OperationResult),
      s.selection.Nodup → truthy (some d) = true →
      (∀ a ∈ s.selection,
        pathJoin (pathResolve eng.cwd d) (basename a) ∉ s.selection) →
      moveSelection eng fuel (some d) s = .ok r t →
      ∀ x, x ∈ t.selection ↔
        ((x ∈ s.selection ∧ x ∈ r.failed.map OperationFailure.path) ∨
          x ∈ r.processed)) := by
  refine ⟨?_, ?_, ?_⟩
  · intro droot s t r h
    by_cases hsel : s.selection.isEmpty
    · unfold copySelection at h
      rw [if_pos hsel] at h
      cases h
    · unfold copySelection at h
      rw [if_neg hsel] at h
      split at h
      · cases h
      · split at h
        · cases h
        · cases h
          exact runOperation_sel_invariant W _
            (fun a s' => copyPerformer_selection W eng fuel _ a s') s.selection _
  · intro s t r hnd h
    by_cases hsel : s.selection.isEmpty
    · unfold deleteSelection at h
      rw [if_pos hsel] at h
      cases h
    · unfold deleteSelection at h
      rw [if_neg hsel] at h
      cases h
      exact (deleteLoop_selection W eng s.selection s hnd).1
  · intro d s t r hnd hd halias h
    by_cases hsel : s.selection.isEmpty
    · unfold moveSelection at h
      rw [if_pos hsel] at h
      cases h
    · unfold moveSelection at h
      rw [if_neg hsel] at h
      split at h
      · cases h
      · rename_i destination rng2 heq
        rw [resolveDestination_truthy W eng fuel s.world s.selection d s.rng hd] at heq
        cases heq
        split at h
        · cases h
        · rename_i w hmk
          cases h
          intro x
          have hml := (moveLoop_selection W eng fuel (pathResolve eng.cwd d) s.selection
            { world := w, selection := s.selection, rng := s.rng } hnd halias hnd).2 x
          rw [hml]
          constructor
          · rintro (⟨hx1, himp⟩ | hxP)
            · exact Or.inl ⟨hx1, himp hx1⟩
            · exact Or.inr hxP
          · rintro (⟨hx1, hF⟩ | hxP)
            · exact Or.inl ⟨hx1, fun _ => hF⟩
            · exact Or.inr hxP

/-- The locale comparator model is transitive. -/
theorem localeLe_trans (a b c : String) (h1 : localeLe a b = true)
    (h2 : localeLe b c = true) : localeLe a c = true := by
  unfold localeLe at h1 h2 ⊢
  by_cases hab : primaryKey a = primaryKey b
  · by_cases hbc : primaryKey b = primaryKey c
    · rw [if_pos hab] at h1
      rw [if_pos hbc] at h2
      rw [if_pos (hab.trans hbc)]
      exact decide_eq_true (le_trans (of_decide_eq_true h1) (of_decide_eq_true h2))
    · rw [if_neg hbc] at h2
      have hac : ¬ primaryKey a = primaryKey c := fun h => hbc (hab ▸ h)
      rw [if_neg hac, hab]
      exact h2
  · by_cases hbc : primaryKey b = primaryKey c
    · rw [if_neg hab] at h1
      have hac : ¬ primaryKey a = primaryKey c := fun h => hab (h.trans hbc.symm)
      rw [if_neg hac, ← hbc]
      exact h1
    · rw [if_neg hab] at h1
      rw [if_neg hbc] at h2
      have hlt := lt_trans (of_decide_eq_true h1) (of_decide_eq_true h2)
      rw [if_neg (ne_of_lt hlt)]
      exact decide_eq_true hlt

/-- The locale comparator model is total. -/
theorem localeLe_total (a b : String) : localeLe a b || localeLe b a := by
  unfold localeLe
  by_cases hab : primaryKey a = primaryKey b
  · rw [if_pos hab, if_pos hab.symm]
    rcases le_total (caseKey a) (caseKey b) with h | h
    · simp [h]
    · simp [h]
  · rw [if_neg hab, if_neg (Ne.symm hab)]
    rcases lt_or_gt_of_ne hab with h | h
    · simp [h]
    · simp [h]

/-- Sorting a two-element list is one comparison. -/
theorem mergeSort_pair {α : Type} (le : α → α → Bool) (x y : α) :
    [x, y].mergeSort le = if le x y = true then [x, y] else [y, x] := by
  rw [List.mergeSort]
  by_cases h : le x y = true
  · simp [List.splitInTwo, List.merge, h]
  · simp [List.splitInTwo, List.merge, h]

/-- The concrete listing of `/root` through `portBa`: the locale comparator
puts `a` before `B`. -/
theorem listEntries_engBa :
    listEntries engBa () "/root" =
      .ok [{ path := "/root/a", name := "a", type := EntryType.file },
           { path := "/root/B", name := "B", type := EntryType.file }] := by
  show Except.ok
      (([{ path := "/root/B", name := "B", type := EntryType.file },
         { path := "/root/a", name := "a", type := EntryType.file }] :
        List FileEntry).mergeSort (fun x y => localeLe x.name y.name)) = _
  rw [mergeSort_pair, if_neg (by decide : ¬ (localeLe "B" "a" = true))]

/-- Claim C2 corrected at a concrete directory: with children named `B` and
`a`, `listEntries` (whose sort uses `localeCompare`) returns `a` before `B`,
an order that is NOT ascending under a case-sensitive lexical (code-unit)
compare, since `'B' < 'a'` in code units. -/
theorem claim_C2_counterexample :
    listEntries engBa () "/root" =
      .ok [{ path := "/root/a", name := "a", type := EntryType.file },
           { path := "/root/B", name := "B", type := EntryType.file }] ∧
    ¬ List.Pairwise (fun x y : FileEntry => x.name ≤ y.name)
      [{ path := "/root/a", name := "a", type := EntryType.file },
       { path := "/root/B", name := "B", type := EntryType.file }] := by
  refine ⟨listEntries_engBa, fun hpw => ?_⟩
  have hle : ("a" : String) ≤ "B" := by
    rcases List.pairwise_cons.mp hpw with ⟨hhead, -⟩
    exact hhead _ (List.mem_cons_self _ _)
  have hlt : ("B" : String) < "a" := by
    rw [String.lt_iff_toList_lt]
    decide
  exact absurd hle (not_le_of_lt hlt)

/-- Claim C2 (amended): every successful `listEntries` result is sorted
ascending by name under the locale collation actually used by the code's
`localeCompare` comparator (modelled by `localeLe`), not under code-unit
order, and every returned entry's path is the resolved directory joined
with the separator and the entry's name. -/
theorem claim_C2 (W : Type) (eng : Engine W) (w : W) (directory : String)
    (es : List FileEntry) (h : listEntries eng w directory = .ok es) :
    es.Pairwise (fun x y => localeLe x.name y.name = true) ∧
    ∀ e ∈ es, e.path = pathJoin (pathResolve eng.cwd directory) e.name := by
  unfold listEntries at h
  cases hrd : eng.port.readDir w (pathResolve eng.cwd directory) with
  | error e =>
    rw [hrd] at h
    cases h
  | ok entries =>
    rw [hrd] at h
    cases h
    constructor
    · exact List.sorted_mergeSort
        (fun x y z h1 h2 => localeLe_trans x.name y.name z.name h1 h2)
        (fun x y => localeLe_total x.name y.name)
        (entries.map (toFileEntry (pathResolve eng.cwd directory)))
    · intro e he
      rw [List.mem_mergeSort] at he
      obtain ⟨d, -, rfl⟩ := List.mem_map.mp he
      rfl

/-- Witness for C2 (amended) at the concrete `B`/`a` directory. -/
theorem claim_C2_witness :
    ([{ path := "/root/a", name := "a", type := EntryType.file },
      { path := "/root/B", name := "B", type := EntryType.file }] :
        List FileEntry).Pairwise (fun x y => localeLe x.name y.name = true) ∧
    ∀ e ∈ ([{ path := "/root/a", name := "a", type := EntryType.file },
            { path := "/root/B", name := "B", type := EntryType.file }] :
        List FileEntry),
      e.path = pathJoin (pathResolve engBa.cwd "/root") e.name :=
  claim_C2 Unit engBa () "/root" _ listEntries_engBa

/-- Witness for C3: concrete copy, delete and move runs over one selected
path, with an explicit non-aliasing destination root. -/
theorem claim_C3_witness :
    st0.selection = st0.selection ∧
    (({ world := (), selection := [], rng := 0 } : EState Unit)).selection
      = st0.selection.filter (fun p => decide (p ∉ (["/root/a.txt"] : List String))) ∧
    ("/dest/a.txt" ∈
        (({ world := (), selection := ["/dest/a.txt"], rng := 0 } : EState Unit)).selection ↔
      (("/dest/a.txt" ∈ st0.selection ∧
          "/dest/a.txt" ∈ ([] : List OperationFailure).map OperationFailure.path) ∨
        "/dest/a.txt" ∈ (["/dest/a.txt"] : List String))) :=
  ⟨(claim_C3 Unit eng0 5).1 (some "/dest") st0 st0
      { processed := ["/dest/a.txt"], failed := [] } rfl,
   (claim_C3 Unit eng0 5).2.1 st0 { world := (), selection := [], rng := 0 }
      { processed := ["/root/a.txt"], failed := [] } (by decide) rfl,
   (claim_C3 Unit eng0 5).2.2 "/dest" st0
      { world := (), selection := ["/dest/a.txt"], rng := 0 }
      { processed := ["/dest/a.txt"], failed := [] }
      (by decide) rfl (by decide) rfl "/dest/a.txt"⟩

end FileExplorer
